import Mathlib

/-!
Verification of the CodeDiff application core against its specification.

The development shallowly embeds the program's core:

* the diff engine (`lcsLen`, `computeDiff`),
* the match index and find effect (`runFindEffect`, navigation handlers),
* the replace engine (`handleReplaceAll` and its per-panel map),
* the lifecycle of the panel collection (`addPanel`, `removePanel`), and
* the scroll-synchronization coordinator (`handleScroll`).

Pure functions of the program become Lean functions; the React state
updates become explicit state-passing.  JavaScript numbers appearing in
the navigation handlers are modelled by `JSNum` (an integer or `NaN`),
because `x % 0` is `NaN` in JavaScript.  The host regular-expression
engine is abstracted as `RegexEngine`: compiling a pattern either fails
(an exception in JavaScript) or yields a matcher returning the list of
`(index, length)` pairs of the non-overlapping global matches in scan
order.
-/

namespace CodeDiff

/-- Kind of a diff line.  Modelled from the spec (`types.ts` is not part of
the sources): `DiffLine = { kind: Added | Removed | Unchanged, text }`;
the rendering code accesses the field as `line.type`. -/
inductive DiffType where
  | Added
  | Removed
  | Unchanged
deriving DecidableEq, Repr

/-- A single classified line of diff output. -/
structure DiffLine where
  type : DiffType
  text : String
deriving DecidableEq, Repr

/-- Modelled from the spec: `calculateDiff` lives in `utils/diff.ts`, which
is not among the sources.  Length of the Longest Common Subsequence of two
line sequences, using exact line equality (§4.1: "Standard O(n·m)
dynamic-programming table", match predicate is exact equality). -/
def lcsLen : List String → List String → Nat
  | [], _ => 0
  | _ :: _, [] => 0
  | a :: as, b :: bs =>
    if a = b then lcsLen as bs + 1
    else max (lcsLen as (b :: bs)) (lcsLen (a :: as) bs)
termination_by xs ys => xs.length + ys.length

/-- Modelled from the spec: the diff engine's backtrace (§4.1).  Emits the
edit script left to right; on a tie between a deletion and an insertion the
deletion is preferred ("prefer emitting the deletion (Removed) before the
insertion (Added)").  A deletion is valid exactly when dropping the base
head cannot decrease the achievable LCS below the alternative, i.e. when
`lcsLen bs (v :: vs) ≥ lcsLen (b :: bs) vs`. -/
def computeDiff : List String → List String → List DiffLine
  | [], vs => vs.map fun v => ⟨DiffType.Added, v⟩
  | b :: bs, [] => (b :: bs).map fun x => ⟨DiffType.Removed, x⟩
  | b :: bs, v :: vs =>
    if b = v then ⟨DiffType.Unchanged, b⟩ :: computeDiff bs vs
    else if lcsLen (b :: bs) vs ≤ lcsLen bs (v :: vs) then
      ⟨DiffType.Removed, b⟩ :: computeDiff bs (v :: vs)
    else
      ⟨DiffType.Added, v⟩ :: computeDiff (b :: bs) vs
termination_by bs vs => bs.length + vs.length

/-- The base-side projection of a diff: texts of Removed and Unchanged
lines, in emission order. -/
def baseOf (d : List DiffLine) : List String :=
  d.filterMap fun l =>
    match l.type with
    | DiffType.Added => none
    | _ => some l.text

/-- The variant-side projection of a diff: texts of Added and Unchanged
lines, in emission order. -/
def variantOf (d : List DiffLine) : List String :=
  d.filterMap fun l =>
    match l.type with
    | DiffType.Removed => none
    | _ => some l.text

theorem baseOf_cons (l : DiffLine) (d : List DiffLine) :
    baseOf (l :: d) = (match l.type with
      | DiffType.Added => baseOf d
      | _ => l.text :: baseOf d) := by
  cases l with
  | mk t s => cases t <;> simp [baseOf]

theorem variantOf_cons (l : DiffLine) (d : List DiffLine) :
    variantOf (l :: d) = (match l.type with
      | DiffType.Removed => variantOf d
      | _ => l.text :: variantOf d) := by
  cases l with
  | mk t s => cases t <;> simp [variantOf]

theorem lcsLen_aux (n : Nat) : ∀ (xs ys : List String), xs.length + ys.length ≤ n →
    (∀ y, lcsLen xs ys ≤ lcsLen xs (y :: ys)) ∧
    (∀ x, lcsLen (x :: xs) ys ≤ lcsLen xs ys + 1) := by
  induction n with
  | zero =>
      intro xs ys h
      have hx : xs = [] := by
        cases xs with
        | nil => rfl
        | cons a as => simp at h
      have hy : ys = [] := by
        cases ys with
        | nil => rfl
        | cons b bs => simp at h
      subst hx; subst hy
      constructor
      · intro y; simp [lcsLen]
      · intro x; simp [lcsLen]
  | succ n ih =>
      intro xs ys h
      constructor
      · intro y
        cases xs with
        | nil => simp [lcsLen]
        | cons x xs' =>
            rw [show lcsLen (x :: xs') (y :: ys) =
              if x = y then lcsLen xs' ys + 1
              else max (lcsLen xs' (y :: ys)) (lcsLen (x :: xs') ys) from by rw [lcsLen]]
            by_cases hxy : x = y
            · subst hxy
              rw [if_pos rfl]
              have h2 := (ih xs' ys (by simp at h; omega)).2 x
              omega
            · rw [if_neg hxy]
              exact le_max_right _ _
      · intro x
        cases ys with
        | nil => simp [lcsLen]
        | cons y ys' =>
            rw [show lcsLen (x :: xs) (y :: ys') =
              if x = y then lcsLen xs ys' + 1
              else max (lcsLen xs (y :: ys')) (lcsLen (x :: xs) ys') from by rw [lcsLen]]
            have h1 := (ih xs ys' (by simp at h; omega)).1 y
            have h2 := (ih xs ys' (by simp at h; omega)).2 x
            by_cases hxy : x = y
            · rw [if_pos hxy]; omega
            · rw [if_neg hxy]
              have : lcsLen (x :: xs) ys' ≤ lcsLen xs (y :: ys') + 1 := by omega
              exact max_le (by omega) this

/-- Dropping a line from the variant side cannot increase the LCS length. -/
theorem lcsLen_cons_right_le (xs ys : List String) (y : String) :
    lcsLen xs ys ≤ lcsLen xs (y :: ys) :=
  (lcsLen_aux (xs.length + ys.length) xs ys le_rfl).1 y

/-- Adding a line to the base side increases the LCS length by at most one. -/
theorem lcsLen_cons_left_le (x : String) (xs ys : List String) :
    lcsLen (x :: xs) ys ≤ lcsLen xs ys + 1 :=
  (lcsLen_aux (xs.length + ys.length) xs ys le_rfl).2 x

/-- No Added line is ever immediately followed by a Removed line.  Within a
contiguous block of changed lines (a maximal run of non-Unchanged lines)
this is equivalent to "all Removed lines precede all Added lines": if some
Removed line came after an Added line in a block, the last Added line
before the first such Removed line would be adjacent to it. -/
def noAddThenRem (d : List DiffLine) : Prop :=
  List.Chain' (fun x y => ¬(x.type = DiffType.Added ∧ y.type = DiffType.Removed)) d

/-- After the backtrace takes an insertion, the next emitted line is never
a deletion: the tie-break condition cannot switch back within a block. -/
theorem head_not_removed (b v : String) (bs vs : List String)
    (hgt : lcsLen bs (v :: vs) < lcsLen (b :: bs) vs) :
    ∀ l, (computeDiff (b :: bs) vs).head? = some l → l.type ≠ DiffType.Removed := by
  cases vs with
  | nil => simp [lcsLen] at hgt
  | cons v' vs' =>
      intro l hl
      by_cases hbv : b = v'
      · subst hbv
        rw [computeDiff, if_pos rfl] at hl
        simp at hl
        rw [← hl]
        simp
      · have e1 : lcsLen (b :: bs) (v' :: vs') ≤ lcsLen bs (v' :: vs') + 1 :=
          lcsLen_cons_left_le b bs (v' :: vs')
        have e2 : lcsLen bs (v' :: vs') ≤ lcsLen bs (v :: v' :: vs') :=
          lcsLen_cons_right_le bs (v' :: vs') v
        have emax : lcsLen (b :: bs) (v' :: vs') =
            max (lcsLen bs (v' :: vs')) (lcsLen (b :: bs) vs') := by
          rw [lcsLen, if_neg hbv]
        have hcond : ¬(lcsLen (b :: bs) vs' ≤ lcsLen bs (v' :: vs')) := by
          rcases max_choice (lcsLen bs (v' :: vs')) (lcsLen (b :: bs) vs') with h | h <;> omega
        rw [computeDiff, if_neg hbv, if_neg hcond] at hl
        simp at hl
        rw [← hl]
        simp

theorem chain_of_all {α} {R : α → α → Prop} (h : ∀ a b, R a b) (l : List α) :
    List.Chain' R l := by
  induction l with
  | nil => simp
  | cons a l ih =>
      rw [List.chain'_cons']
      exact ⟨fun b _ => h a b, ih⟩

theorem computeDiff_noAddThenRem (B V : List String) : noAddThenRem (computeDiff B V) := by
  induction B, V using computeDiff.induct with
  | case1 vs =>
      rw [computeDiff, noAddThenRem, List.chain'_map]
      exact chain_of_all (by intro a b; simp) _
  | case2 b bs =>
      rw [computeDiff, noAddThenRem, List.chain'_map]
      exact chain_of_all (by intro a b; simp) _
  | case3 as b bs ih =>
      rw [computeDiff, if_pos rfl]
      rw [noAddThenRem, List.chain'_cons']
      exact ⟨fun y _ => by simp, ih⟩
  | case4 b bs v vs hne hle ih =>
      rw [computeDiff, if_neg hne, if_pos hle]
      rw [noAddThenRem, List.chain'_cons']
      exact ⟨fun y _ => by simp, ih⟩
  | case5 b bs v vs hne hgt ih =>
      rw [computeDiff, if_neg hne, if_neg hgt]
      rw [noAddThenRem, List.chain'_cons']
      refine ⟨fun y hy => ?_, ih⟩
      have := head_not_removed b v bs vs (by omega) y hy
      simp [this]

/-- C1: for every pair of line sequences `B` and `V`, the Removed/Unchanged
lines of `computeDiff B V`, in emission order, reconstruct `B`, and the
Added/Unchanged lines reconstruct `V`. -/
theorem computeDiff_reconstructs (B V : List String) :
    baseOf (computeDiff B V) = B ∧ variantOf (computeDiff B V) = V := by
  induction B, V using computeDiff.induct with
  | case1 vs =>
      rw [computeDiff]
      constructor
      · induction vs with
        | nil => rfl
        | cons v vs ihv => simp [baseOf]
      · induction vs with
        | nil => rfl
        | cons v vs ihv => simpa [variantOf] using ihv
  | case2 b bs =>
      rw [computeDiff]
      constructor
      · induction bs with
        | nil => simp [baseOf]
        | cons x xs ihx => simpa [baseOf] using ihx
      · induction bs with
        | nil => simp [variantOf]
        | cons x xs ihx => simp [variantOf]
  | case3 as b bs ih =>
      rw [computeDiff, if_pos rfl]
      simp [baseOf_cons, variantOf_cons, ih.1, ih.2]
  | case4 b bs v vs hne hle ih =>
      rw [computeDiff, if_neg hne, if_pos hle]
      simp [baseOf_cons, variantOf_cons, ih.1, ih.2]
  | case5 b bs v vs hne hgt ih =>
      rw [computeDiff, if_neg hne, if_neg hgt]
      simp [baseOf_cons, variantOf_cons, ih.1, ih.2]

/-- C2: in every diff, no Added line is immediately followed by a Removed
line (equivalently, in every contiguous block of changed lines all Removed
lines precede all Added lines — the deletion is preferred at every tie of
the backtrace), and in particular `computeDiff ["a"] ["b"]` is
`[Removed "a", Added "b"]`. -/
theorem computeDiff_removed_before_added :
    (∀ B V, noAddThenRem (computeDiff B V)) ∧
    computeDiff ["a"] ["b"] = [⟨DiffType.Removed, "a"⟩, ⟨DiffType.Added, "b"⟩] := by
  constructor
  · exact computeDiff_noAddThenRem
  · simp [computeDiff, lcsLen]

/-- Sanity check from the spec: the tie-break example
`B = ["a","b","c"]`, `V = ["a","x","c"]`. -/
theorem computeDiff_tiebreak_example :
    computeDiff ["a", "b", "c"] ["a", "x", "c"] =
      [⟨DiffType.Unchanged, "a"⟩, ⟨DiffType.Removed, "b"⟩,
       ⟨DiffType.Added, "x"⟩, ⟨DiffType.Unchanged, "c"⟩] := by
  simp [computeDiff, lcsLen]

/-- A document/panel: opaque id, editable text, editable title
(`PanelData` in the source; the `types.ts` module itself is not among the
sources, the shape is taken from the spec data model and the uses in
`App`). -/
structure PanelData where
  id : String
  text : String
  title : String
deriving DecidableEq, Repr

/-- A match of the find query inside one panel's text: character offsets
`[start, endPos)` (`end` in the source, renamed because `end` is a Lean
keyword). -/
structure Match where
  panelId : String
  start : Nat
  endPos : Nat
deriving DecidableEq, Repr

/-- Find options record: `{ caseSensitive, useRegex }`. -/
structure FindOptions where
  caseSensitive : Bool
  useRegex : Bool
deriving DecidableEq, Repr

/-- A JavaScript number as it occurs in the navigation handlers: an
integer, or `NaN` (in JavaScript `x % 0` is `NaN`). -/
inductive JSNum where
  | int (i : Int)
  | nan
deriving DecidableEq, Repr

/-- JavaScript `+` on the relevant domain: `NaN` is absorbing. -/
def jsAdd (x : JSNum) (k : Int) : JSNum :=
  match x with
  | JSNum.int a => JSNum.int (a + k)
  | JSNum.nan => JSNum.nan

/-- JavaScript `%` on the relevant domain: remainder truncated toward zero
(`Int.tmod`), and `NaN` when the divisor is `0` or the dividend is `NaN`.
(the JavaScript value `-0` is identified with `0`.) -/
def jsMod (x : JSNum) (n : Nat) : JSNum :=
  match x with
  | JSNum.nan => JSNum.nan
  | JSNum.int a => if n = 0 then JSNum.nan else JSNum.int (Int.tmod a n)

/-- `handleFindNext`: `setActiveMatchIndex(prev => (prev + 1) % matches.length)`. -/
def handleFindNext (activeMatchIndex : JSNum) (matchCount : Nat) : JSNum :=
  jsMod (jsAdd activeMatchIndex 1) matchCount

/-- `handleFindPrev`: `setActiveMatchIndex(prev => (prev - 1 + matches.length) % matches.length)`. -/
def handleFindPrev (activeMatchIndex : JSNum) (matchCount : Nat) : JSNum :=
  jsMod (jsAdd activeMatchIndex (-1 + (matchCount : Int))) matchCount

/-- The regex metacharacters, `.*+?^$\x7b\x7d()|[]\` . -/
def regexMetachars : List Char :=
  ['.', '*', '+', '?', '^', '$', '\x7b', '\x7d', '(', ')', '|', '[', ']', '\\']

/-- Modelled from the spec: `escapeRegExp` lives in `utils/regex.ts`, which
is not among the sources.  §4.2: "every regex metacharacter in `query` is
escaped so the search is literal". -/
def escapeRegExp (s : String) : String :=
  String.mk (s.data.foldr (fun c acc => if c ∈ regexMetachars then '\\' :: c :: acc else c :: acc) [])

/-- The host regular-expression facility, abstracted.  `compile pattern
flags` either fails (JavaScript `new RegExp` throwing on an invalid
pattern) or yields a matcher sending a text to the `(index, length)` pairs
of its non-overlapping global matches in scan order (`String.matchAll`).
Case-sensitivity is governed by the flags string. -/
structure RegexEngine where
  compile : String → String → Option (String → List (Nat × Nat))

/-- Pattern passed to `new RegExp` by the Find Matches effect:
`findOptions.useRegex ? findQuery : escapeRegExp(findQuery)`. -/
def buildFindPattern (findQuery : String) (findOptions : FindOptions) : String :=
  if findOptions.useRegex then findQuery else escapeRegExp findQuery

/-- Flags passed by the Find Matches effect:
`findOptions.caseSensitive ? 'g' : 'gi'`. -/
def findFlags (findOptions : FindOptions) : String :=
  if findOptions.caseSensitive then "g" else "gi"

/-- The panel loop of the Find Matches effect: for each panel in order,
append its matches (panel id, start offset, end offset) in scan order. -/
def computeAllMatches (matcher : String → List (Nat × Nat)) : List PanelData → List Match
  | [] => []
  | p :: ps =>
      ((matcher p.text).map fun m => ⟨p.id, m.1, m.1 + m.2⟩) ++ computeAllMatches matcher ps

/-- The Find Matches effect (App lines 65–96): clears the list when the
query is empty or the widget hidden; otherwise compiles the pattern inside
`try`, scans every panel, and sets the active index to `0` when matches
exist and `-1` otherwise; the `catch` of an invalid regex sets `([], -1)`.
Returns the pair (matches, activeMatchIndex) that is stored. -/
def runFindEffect (eng : RegexEngine) (panels : List PanelData) (findQuery : String)
    (findOptions : FindOptions) (isFindVisible : Bool) : List Match × JSNum :=
  if findQuery = "" ∨ isFindVisible = false then ([], JSNum.int (-1))
  else
    match eng.compile (buildFindPattern findQuery findOptions) (findFlags findOptions) with
    | none => ([], JSNum.int (-1))
    | some matcher =>
        let allMatches := computeAllMatches matcher panels
        (allMatches, if 0 < allMatches.length then JSNum.int 0 else JSNum.int (-1))

/-- The find-related component state: the global match list and the active
match index (the source field `matches` is a Lean keyword, hence the
guillemets). -/
structure FindState where
  «matches» : List Match
  activeMatchIndex : JSNum
deriving DecidableEq, Repr

/-- Running the Find Matches effect replaces the stored find state
wholesale; the effect body never reads the previous state. -/
def applyFindEffect (eng : RegexEngine) (panels : List PanelData) (findQuery : String)
    (findOptions : FindOptions) (isFindVisible : Bool) (_old : FindState) : FindState :=
  let r := runFindEffect eng panels findQuery findOptions isFindVisible
  { «matches» := r.1, activeMatchIndex := r.2 }

/-- The documented invariant on the active match index: the `-1` sentinel
when the match list is empty, an integer in `[0, len)` otherwise. -/
def activeIndexInvariant (ms : List Match) (idx : JSNum) : Prop :=
  match ms with
  | [] => idx = JSNum.int (-1)
  | _ :: _ => ∃ i : Nat, idx = JSNum.int i ∧ i < ms.length

theorem tmod_coe (a b : Nat) : Int.tmod (a : Int) (b : Int) = ((a % b : Nat) : Int) := rfl

/-- For an integer index and a positive count, `handleFindNext` is the
mathematical successor modulo the count. -/
theorem handleFindNext_int (i n : Nat) (h : 0 < n) :
    handleFindNext (JSNum.int i) n = JSNum.int (((i + 1) % n : Nat) : Int) := by
  rw [handleFindNext, jsAdd, jsMod, if_neg (by omega)]
  have hc : ((i : Int) + 1) = ((i + 1 : Nat) : Int) := by omega
  rw [hc, tmod_coe]

/-- For an integer index and a positive count, `handleFindPrev` is the
mathematical predecessor modulo the count. -/
theorem handleFindPrev_int (i n : Nat) (h : 0 < n) :
    handleFindPrev (JSNum.int i) n = JSNum.int (((i + n - 1) % n : Nat) : Int) := by
  rw [handleFindPrev, jsAdd, jsMod, if_neg (by omega)]
  have hc : ((i : Int) + (-1 + (n : Int))) = ((i + n - 1 : Nat) : Int) := by omega
  rw [hc, tmod_coe]

/-- The pair stored by the Find Matches effect always couples the index to
the list: `0` for a non-empty list, `-1` for an empty one. -/
theorem runFindEffect_index_spec (eng : RegexEngine) (panels : List PanelData)
    (q : String) (opts : FindOptions) (vis : Bool) :
    (runFindEffect eng panels q opts vis).2 =
      (if (runFindEffect eng panels q opts vis).1.isEmpty
       then JSNum.int (-1) else JSNum.int 0) := by
  rw [runFindEffect]
  by_cases hg : q = "" ∨ vis = false
  · rw [if_pos hg]; rfl
  · rw [if_neg hg]
    cases hc : eng.compile (buildFindPattern q opts) (findFlags opts) with
    | none => rfl
    | some matcher =>
        simp only
        have key : ∀ x : List Match,
            (if 0 < x.length then JSNum.int 0 else JSNum.int (-1)) =
              (if x.isEmpty then JSNum.int (-1) else JSNum.int 0) := by
          intro x
          cases x <;> simp
        exact key _

/-- C3: when the match count is positive, `handleFindNext` and
`handleFindPrev` step the active index by `±1` modulo the count; but when
the count is `0` they do not return the `-1` sentinel: the JavaScript
`(x ± 1) % 0` is `NaN`, which is stored as the active index. -/
theorem findNav_mod_formula_and_empty_nan :
    (∀ i n : Nat, i < n →
        handleFindNext (JSNum.int i) n = JSNum.int (((i + 1) % n : Nat) : Int) ∧
        handleFindPrev (JSNum.int i) n = JSNum.int (((i + n - 1) % n : Nat) : Int)) ∧
    handleFindNext (JSNum.int (-1)) 0 = JSNum.nan ∧
    handleFindPrev (JSNum.int (-1)) 0 = JSNum.nan ∧
    JSNum.nan ≠ JSNum.int (-1) := by
  refine ⟨fun i n h => ⟨handleFindNext_int i n (by omega), handleFindPrev_int i n (by omega)⟩,
    ?_, ?_, by decide⟩
  · rfl
  · rfl

/-- Witness for the C3 theorem at concrete inputs. -/
theorem findNav_mod_formula_and_empty_nan_witness :
    handleFindNext (JSNum.int 2) 3 = JSNum.int 0 ∧
    handleFindPrev (JSNum.int 0) 3 = JSNum.int 2 ∧
    handleFindNext (JSNum.int (-1)) 0 = JSNum.nan := by
  have h := findNav_mod_formula_and_empty_nan
  exact ⟨by simpa using (h.1 2 3 (by decide)).1,
    by simpa using (h.1 0 3 (by decide)).2, h.2.1⟩

/-- C4: the Find Matches effect always establishes the active-index
invariant, and `next`/`prev` preserve it while the list is non-empty; but
`next` (likewise `prev`) on an empty match list stores `NaN`, violating
the invariant that an empty list carries the `-1` sentinel. -/
theorem activeIndexInvariant_effect_and_empty_nav_violation :
    (∀ eng panels q opts vis old,
        activeIndexInvariant (applyFindEffect eng panels q opts vis old).«matches»
          (applyFindEffect eng panels q opts vis old).activeMatchIndex) ∧
    (∀ (ms : List Match) (i : Nat), i < ms.length →
        activeIndexInvariant ms (handleFindNext (JSNum.int i) ms.length) ∧
        activeIndexInvariant ms (handleFindPrev (JSNum.int i) ms.length)) ∧
    ¬ activeIndexInvariant [] (handleFindNext (JSNum.int (-1)) 0) := by
  refine ⟨?_, ?_, ?_⟩
  · intro eng panels q opts vis old
    have hspec := runFindEffect_index_spec eng panels q opts vis
    show activeIndexInvariant (runFindEffect eng panels q opts vis).1
      (runFindEffect eng panels q opts vis).2
    rw [hspec]
    cases hms : (runFindEffect eng panels q opts vis).1 with
    | nil => rw [activeIndexInvariant]; simp
    | cons m ms =>
        rw [activeIndexInvariant]
        simp only [List.isEmpty_cons, if_neg]
        exact ⟨0, by norm_num, by simp⟩
  · intro ms i h
    cases ms with
    | nil => simp at h
    | cons m ms' =>
        constructor
        · rw [handleFindNext_int i (m :: ms').length (by simp)]
          exact ⟨(i + 1) % (m :: ms').length, rfl, Nat.mod_lt _ (by simp)⟩
        · rw [handleFindPrev_int i (m :: ms').length (by simp)]
          exact ⟨(i + (m :: ms').length - 1) % (m :: ms').length, rfl, Nat.mod_lt _ (by simp)⟩
  · intro hinv
    rw [activeIndexInvariant] at hinv
    exact absurd hinv (by decide)

/-- Witness for the C4 theorem at concrete inputs. -/
theorem activeIndexInvariant_effect_and_empty_nav_violation_witness :
    activeIndexInvariant [⟨"p", 0, 1⟩] (handleFindNext (JSNum.int 0) 1) ∧
    ¬ activeIndexInvariant [] (handleFindNext (JSNum.int (-1)) 0) := by
  have h := activeIndexInvariant_effect_and_empty_nav_violation
  exact ⟨(h.2.1 [⟨"p", 0, 1⟩] 0 (by decide)).1, h.2.2⟩

/-- C5: when `useRegex` is true and the pattern does not compile, the Find
Matches effect catches the exception and stores the empty match list with
the `-1` sentinel — exactly the state stored when a valid pattern finds no
matches, so the failure is indistinguishable from "no matches found" and
no exception escapes (the effect is a total function in this model, the
`catch` branch of the source). -/
theorem invalid_regex_empty_matches (eng : RegexEngine) (panels : List PanelData)
    (q : String) (opts : FindOptions) (vis : Bool)
    (hre : opts.useRegex = true)
    (hc : eng.compile q (findFlags opts) = none) :
    runFindEffect eng panels q opts vis = ([], JSNum.int (-1)) := by
  rw [runFindEffect]
  by_cases hg : q = "" ∨ vis = false
  · rw [if_pos hg]
  · rw [if_neg hg]
    have hp : buildFindPattern q opts = q := by rw [buildFindPattern, hre, if_pos rfl]
    rw [hp, hc]

/-- Witness for the C5 theorem: an engine on which the pattern `"("` fails
to compile. -/
theorem invalid_regex_empty_matches_witness :
    runFindEffect ⟨fun _ _ => none⟩ [⟨"p1", "hello", "t"⟩] "(" ⟨false, true⟩ true
      = ([], JSNum.int (-1)) :=
  invalid_regex_empty_matches ⟨fun _ _ => none⟩ [⟨"p1", "hello", "t"⟩] "(" ⟨false, true⟩ true
    rfl rfl

/-- C10: every run of the Find Matches effect replaces the find state with
a value independent of the previous state, and the new active index is `0`
exactly when the new match list is non-empty and `-1` when it is empty:
the previously active position is never carried over. -/
theorem findEffect_resets_active_index (eng : RegexEngine) (panels : List PanelData)
    (q : String) (opts : FindOptions) (vis : Bool) (old1 old2 : FindState) :
    applyFindEffect eng panels q opts vis old1 = applyFindEffect eng panels q opts vis old2 ∧
    (applyFindEffect eng panels q opts vis old1).activeMatchIndex =
      (if (applyFindEffect eng panels q opts vis old1).«matches».isEmpty
       then JSNum.int (-1) else JSNum.int 0) := by
  exact ⟨rfl, runFindEffect_index_spec eng panels q opts vis⟩

/-- A JavaScript heap object holding a panel: Lean values are pure, so
object identity is made observable through an explicit allocation token
`ref`; the handler under study returns either an input object unchanged
(same `ref`, same fields) or a freshly allocated one (a `ref` not among
the inputs). -/
structure JSObj where
  ref : Nat
  data : PanelData
deriving DecidableEq, Repr

/-- Largest allocation token among the input objects; fresh objects
receive strictly larger tokens. -/
def maxRef (panels : List JSObj) : Nat :=
  panels.foldr (fun p acc => max p.ref acc) 0

/-- Splice `repl` over each `(start, length)` match, keeping the text
between matches: the semantics of a global `String.replace`.  (`$`
substitution patterns of JavaScript replacement strings are outside the
model; the replacement is inserted literally, as the spec describes.) -/
def spliceAll (repl : List Char) (s : List Char) (pos : Nat) : List (Nat × Nat) → List Char
  | [] => s.drop pos
  | (start, len) :: rest =>
      (s.drop pos).take (start - pos) ++ repl ++ spliceAll repl s (start + len) rest

/-- `text.replace(regex, replacement)` with a global regex: replace every
match the matcher yields. -/
def jsReplaceAll (matcher : String → List (Nat × Nat)) (repl : String) (text : String) : String :=
  String.mk (spliceAll repl.data text.data 0 (matcher text))

/-- The `panelUpdates` map built by `handleReplaceAll`: one `(id, newText)`
entry per panel whose text is changed by the substitution, in panel order
(the JavaScript `Map` is modelled as an association list; panel ids are
`crypto.randomUUID()` values, distinct in every reachable state, which the
theorems assume through a `Nodup` hypothesis). -/
def computeUpdates (subst : String → String) (panels : List JSObj) : List (String × String) :=
  panels.filterMap fun p =>
    if subst p.data.text = p.data.text then none else some (p.data.id, subst p.data.text)

/-- `Map.get`: the value stored for a key, if any. -/
def mapGet : List (String × String) → String → Option String
  | [], _ => none
  | (k, v) :: rest, key => if k = key then some v else mapGet rest key

/-- One step of the final `prevPanels.map`: a panel with a pending update
is replaced by a freshly allocated object (`{...p, text}`), any other
panel is returned as the very same object. -/
def applyUpdate (updates : List (String × String)) (m i : Nat) (p : JSObj) : JSObj :=
  match mapGet updates p.data.id with
  | some t => ⟨m + i + 1, { p.data with text := t }⟩
  | none => p

def replaceAllPanelsGo (updates : List (String × String)) (m : Nat) :
    Nat → List JSObj → List JSObj
  | _, [] => []
  | i, p :: ps => applyUpdate updates m i p :: replaceAllPanelsGo updates m (i + 1) ps

/-- The body of `handleReplaceAll` after its guard: compute the updates
map, then map the panel collection through it. -/
def replaceAllPanels (subst : String → String) (panels : List JSObj) : List JSObj :=
  replaceAllPanelsGo (computeUpdates subst panels) (maxRef panels) 0 panels

/-- Pattern built by `handleReplaceAll` (App line 211), transcribed
separately from the identical expression in the Find Matches effect. -/
def buildReplacePattern (findQuery : String) (findOptions : FindOptions) : String :=
  if findOptions.useRegex then findQuery else escapeRegExp findQuery

/-- Flags passed by `handleReplaceAll` (App line 212). -/
def replaceFlags (findOptions : FindOptions) : String :=
  if findOptions.caseSensitive then "g" else "gi"

/-- `handleReplaceAll` (App lines 205–220): early return when the query is
empty or no matches exist; otherwise substitute in every panel and replace
only the changed panels in the collection.  A compile failure would throw
before any `setPanels` call, leaving the collection unchanged, which is
what the `none` branch returns. -/
def handleReplaceAll (eng : RegexEngine) (findQuery : String) (findOptions : FindOptions)
    (replaceQuery : String) (ms : List Match) (panels : List JSObj) : List JSObj :=
  if findQuery = "" ∨ ms = [] then panels
  else
    match eng.compile (buildReplacePattern findQuery findOptions) (replaceFlags findOptions) with
    | none => panels
    | some matcher => replaceAllPanels (jsReplaceAll matcher replaceQuery) panels

theorem mapGet_eq_none_of_not_mem (subst : String → String) (ps : List JSObj) (pid : String)
    (h : pid ∉ ps.map fun p => p.data.id) :
    mapGet (computeUpdates subst ps) pid = none := by
  induction ps with
  | nil => rfl
  | cons a ps ih =>
      have hne : a.data.id ≠ pid := by
        intro he
        exact h (by simp [he])
      have htail : pid ∉ ps.map fun p => p.data.id := by
        intro hm
        exact h (by simp [hm])
      rw [computeUpdates, List.filterMap_cons]
      by_cases hch : subst a.data.text = a.data.text
      · rw [if_pos hch]
        exact ih htail
      · rw [if_neg hch]
        rw [mapGet, if_neg hne]
        exact ih htail

theorem mapGet_computeUpdates (subst : String → String) (ps : List JSObj)
    (hnd : (ps.map fun p => p.data.id).Nodup) (i : Nat) (p : JSObj)
    (hget : ps.get? i = some p) :
    mapGet (computeUpdates subst ps) p.data.id =
      (if subst p.data.text = p.data.text then none else some (subst p.data.text)) := by
  induction ps generalizing i with
  | nil => simp at hget
  | cons a ps ih =>
      rw [List.map_cons, List.nodup_cons] at hnd
      have hhead : a.data.id ∉ ps.map fun x => x.data.id := hnd.1
      have htail : (ps.map fun x => x.data.id).Nodup := hnd.2
      cases i with
      | zero =>
          have hp : a = p := by simpa using hget
          subst hp
          rw [computeUpdates, List.filterMap_cons]
          by_cases hch : subst a.data.text = a.data.text
          · rw [if_pos hch, if_pos hch]
            exact mapGet_eq_none_of_not_mem subst ps a.data.id hhead
          · rw [if_neg hch, if_neg hch]
            rw [mapGet, if_pos rfl]
      | succ j =>
          have hget' : ps.get? j = some p := by simpa using hget
          have hpmem : p.data.id ∈ ps.map fun x => x.data.id := by
            have := List.get?_mem hget'
            exact List.mem_map_of_mem _ this
          have hne : a.data.id ≠ p.data.id := by
            intro he
            rw [he] at hhead
            exact hhead hpmem
          rw [computeUpdates, List.filterMap_cons]
          by_cases hch : subst a.data.text = a.data.text
          · rw [if_pos hch]
            exact ih htail j hget'
          · rw [if_neg hch]
            rw [mapGet, if_neg hne]
            exact ih htail j hget'

theorem replaceAllPanelsGo_length (updates : List (String × String)) (m : Nat) :
    ∀ (ps : List JSObj) (i : Nat), (replaceAllPanelsGo updates m i ps).length = ps.length := by
  intro ps
  induction ps with
  | nil => intro i; rfl
  | cons p ps ih =>
      intro i
      rw [replaceAllPanelsGo]
      simp [ih]

theorem replaceAllPanelsGo_get? (updates : List (String × String)) (m : Nat) :
    ∀ (ps : List JSObj) (i j : Nat),
      (replaceAllPanelsGo updates m i ps).get? j =
        (ps.get? j).map (applyUpdate updates m (i + j)) := by
  intro ps
  induction ps with
  | nil => intro i j; rfl
  | cons p ps ih =>
      intro i j
      cases j with
      | zero => rfl
      | succ j' =>
          rw [replaceAllPanelsGo]
          have : i + (j' + 1) = (i + 1) + j' := by omega
          rw [this]
          simpa using ih (i + 1) j'

theorem maxRef_ge (ps : List JSObj) (p : JSObj) (h : p ∈ ps) : p.ref ≤ maxRef ps := by
  induction ps with
  | nil => simp at h
  | cons a ps ih =>
      rcases List.mem_cons.mp h with h1 | h2
      · subst h1
        exact le_max_left _ _
      · exact le_trans (ih h2) (le_max_right _ _)

/-- Behaviour of the post-guard map of `handleReplaceAll` at each index:
an unchanged panel is returned as the identical object, a changed panel as
a freshly allocated object carrying the substituted text. -/
theorem replaceAllPanels_spec (subst : String → String) (panels : List JSObj)
    (hnd : (panels.map fun p => p.data.id).Nodup) :
    (replaceAllPanels subst panels).length = panels.length ∧
    ∀ (i : Nat) (p : JSObj), panels.get? i = some p →
      (subst p.data.text = p.data.text → (replaceAllPanels subst panels).get? i = some p) ∧
      (subst p.data.text ≠ p.data.text →
        ∃ q, (replaceAllPanels subst panels).get? i = some q ∧
          q.ref ∉ (panels.map fun x => x.ref) ∧
          q.data.id = p.data.id ∧ q.data.title = p.data.title ∧
          q.data.text = subst p.data.text) := by
  constructor
  · exact replaceAllPanelsGo_length _ _ panels 0
  · intro i p hget
    have hgo := replaceAllPanelsGo_get? (computeUpdates subst panels) (maxRef panels) panels 0 i
    have hz : 0 + i = i := by omega
    rw [hz] at hgo
    have hmg := mapGet_computeUpdates subst panels hnd i p hget
    constructor
    · intro hch
      rw [replaceAllPanels, hgo, hget]
      rw [if_pos hch] at hmg
      simp [applyUpdate, hmg]
    · intro hch
      rw [if_neg hch] at hmg
      refine ⟨⟨maxRef panels + i + 1, { p.data with text := subst p.data.text }⟩, ?_, ?_, rfl, rfl, rfl⟩
      · rw [replaceAllPanels, hgo, hget]
        simp [applyUpdate, hmg]
      · intro hmem
        rcases List.mem_map.mp hmem with ⟨x, hx, hxr⟩
        have hxr2 : x.ref = maxRef panels + i + 1 := hxr
        have hle := maxRef_ge panels x hx
        omega

/-- C6: every call to `handleReplaceAll` either returns the collection as
is, or maps it so that each panel whose text is unchanged by the
substitution is returned as the very same object (same allocation token,
all fields untouched), while only panels whose text differs are replaced
by freshly allocated objects. -/
theorem replaceAll_identity_preserving :
    (∀ (eng : RegexEngine) (q : String) (opts : FindOptions) (repl : String)
        (ms : List Match) (panels : List JSObj),
        handleReplaceAll eng q opts repl ms panels = panels ∨
        ∃ matcher, eng.compile (buildReplacePattern q opts) (replaceFlags opts) = some matcher ∧
          handleReplaceAll eng q opts repl ms panels =
            replaceAllPanels (jsReplaceAll matcher repl) panels) ∧
    (∀ (subst : String → String) (panels : List JSObj),
        (panels.map fun p => p.data.id).Nodup →
        ∀ (i : Nat) (p : JSObj), panels.get? i = some p →
          (subst p.data.text = p.data.text →
            (replaceAllPanels subst panels).get? i = some p) ∧
          (subst p.data.text ≠ p.data.text →
            ∃ q, (replaceAllPanels subst panels).get? i = some q ∧
              q.ref ∉ (panels.map fun x => x.ref) ∧
              q.data.id = p.data.id ∧ q.data.title = p.data.title ∧
              q.data.text = subst p.data.text)) := by
  constructor
  · intro eng q opts repl ms panels
    rw [handleReplaceAll]
    by_cases hg : q = "" ∨ ms = []
    · rw [if_pos hg]
      exact Or.inl rfl
    · rw [if_neg hg]
      cases hc : eng.compile (buildReplacePattern q opts) (replaceFlags opts) with
      | none => exact Or.inl rfl
      | some matcher => exact Or.inr ⟨matcher, rfl, rfl⟩
  · intro subst panels hnd i p hget
    exact (replaceAllPanels_spec subst panels hnd).2 i p hget

/-- Example collection for the C6 witness, mirroring the testable property
of §8: `["foo bar", "baz"]`, query `"bar"`, replacement `"qux"`. -/
def panelsExample : List JSObj :=
  [⟨1, ⟨"idA", "foo bar", "t1"⟩⟩, ⟨2, ⟨"idB", "baz", "t2"⟩⟩]

/-- The substitution `"bar" → "qux"` restricted to the two texts of
`panelsExample`. -/
def substExample (s : String) : String :=
  if s = "foo bar" then "foo qux" else s

/-- Witness for the C6 theorem: the changed panel gets a fresh object with
the substituted text, the unchanged panel is returned identically. -/
theorem replaceAll_identity_preserving_witness :
    ((replaceAllPanels substExample panelsExample).get? 1 = some ⟨2, ⟨"idB", "baz", "t2"⟩⟩) ∧
    ∃ q, (replaceAllPanels substExample panelsExample).get? 0 = some q ∧
      q.ref ∉ (panelsExample.map fun x => x.ref) ∧
      q.data.id = "idA" ∧ q.data.title = "t1" ∧ q.data.text = "foo qux" := by
  have h := replaceAll_identity_preserving
  have h1 := (h.2 substExample panelsExample (by decide) 1 ⟨2, ⟨"idB", "baz", "t2"⟩⟩ rfl).1
    (by decide)
  have h0 := (h.2 substExample panelsExample (by decide) 0 ⟨1, ⟨"idA", "foo bar", "t1"⟩⟩ rfl).2
    (by decide)
  exact ⟨h1, h0⟩

theorem computeAllMatches_nil_all_nil (matcher : String → List (Nat × Nat)) :
    ∀ (ps : List PanelData), computeAllMatches matcher ps = [] →
      ∀ p ∈ ps, matcher p.text = [] := by
  intro ps
  induction ps with
  | nil => intro _ p hp; simp at hp
  | cons a ps ih =>
      intro h p hp
      rw [computeAllMatches] at h
      rcases List.append_eq_nil.mp h with ⟨h1, h2⟩
      rcases List.mem_cons.mp hp with hpa | hpm
      · subst hpa
        exact List.map_eq_nil_iff.mp h1
      · exact ih h2 p hpm

theorem jsReplaceAll_no_match (matcher : String → List (Nat × Nat)) (repl text : String)
    (h : matcher text = []) : jsReplaceAll matcher repl text = text := by
  rw [jsReplaceAll, h, spliceAll, List.drop_zero]

/-- C7: `handleReplaceAll` compiles its pattern and flags by exactly the
rules of the Find Matches effect (escaped literal query unless `useRegex`,
case-insensitive flags unless `caseSensitive`), and — with the match list
in sync with that effect — rewrites each document independently to the
global substitution of the replacement over its own text. -/
theorem replaceAll_same_pattern_global_subst :
    buildReplacePattern = buildFindPattern ∧ replaceFlags = findFlags ∧
    ∀ (eng : RegexEngine) (panels : List JSObj) (q : String) (opts : FindOptions)
      (repl : String) (matcher : String → List (Nat × Nat)),
      q ≠ "" →
      eng.compile (buildReplacePattern q opts) (replaceFlags opts) = some matcher →
      (panels.map fun p => p.data.id).Nodup →
      ∀ (i : Nat) (p : JSObj), panels.get? i = some p →
        ∃ q', (handleReplaceAll eng q opts repl
                 (runFindEffect eng (panels.map fun x => x.data) q opts true).1 panels).get? i
              = some q' ∧
          q'.data.text = jsReplaceAll matcher repl p.data.text := by
  refine ⟨rfl, rfl, ?_⟩
  intro eng panels q opts repl matcher hq hc hnd i p hget
  have hg : ¬(q = "" ∨ (true : Bool) = false) := by simp [hq]
  have hc2 : eng.compile (buildFindPattern q opts) (findFlags opts) = some matcher := hc
  have hms : (runFindEffect eng (panels.map fun x => x.data) q opts true).1 =
      computeAllMatches matcher (panels.map fun x => x.data) := by
    rw [runFindEffect, if_neg hg, hc2]
  by_cases hemp : computeAllMatches matcher (panels.map fun x => x.data) = []
  · have hall := computeAllMatches_nil_all_nil matcher _ hemp
    have hpt : matcher p.data.text = [] := by
      refine hall p.data (List.mem_map_of_mem _ ?_)
      exact List.get?_mem hget
    have hout : handleReplaceAll eng q opts repl
        (runFindEffect eng (panels.map fun x => x.data) q opts true).1 panels = panels := by
      rw [handleReplaceAll, if_pos]
      rw [hms, hemp]
      exact Or.inr rfl
    refine ⟨p, by rw [hout, hget], ?_⟩
    rw [jsReplaceAll_no_match matcher repl p.data.text hpt]
  · have hout : handleReplaceAll eng q opts repl
        (runFindEffect eng (panels.map fun x => x.data) q opts true).1 panels =
        replaceAllPanels (jsReplaceAll matcher repl) panels := by
      rw [handleReplaceAll, if_neg, hc]
      rw [hms]
      simp [hq, hemp]
    rw [hout]
    have hspec := (replaceAllPanels_spec (jsReplaceAll matcher repl) panels hnd).2 i p hget
    by_cases hch : jsReplaceAll matcher repl p.data.text = p.data.text
    · refine ⟨p, hspec.1 hch, ?_⟩
      rw [hch]
    · rcases hspec.2 hch with ⟨q', hq', _, _, _, htext⟩
      exact ⟨q', hq', htext⟩

/-- An engine whose matcher compiles every pattern and finds no matches
anywhere; used by the C7 witness. -/
def noMatchEngine : RegexEngine := ⟨fun _ _ => some fun _ => []⟩

/-- One-object collection for the C7 witness. -/
def panelObjExample : JSObj := ⟨5, ⟨"idC", "abc", "t"⟩⟩

/-- Witness for the C7 theorem: an engine whose matcher finds no matches
anywhere, on a one-panel collection. -/
theorem replaceAll_same_pattern_global_subst_witness :
    ∃ q' : JSObj, (handleReplaceAll noMatchEngine "x" ⟨false, false⟩ "y"
             (runFindEffect noMatchEngine
               ([panelObjExample].map fun x => x.data) "x" ⟨false, false⟩ true).1
             [panelObjExample]).get? 0
          = some q' ∧
      q'.data.text = jsReplaceAll (fun _ => []) "y" panelObjExample.data.text :=
  replaceAll_same_pattern_global_subst.2.2 noMatchEngine
    [panelObjExample] "x" ⟨false, false⟩ "y" (fun _ => [])
    (by decide) rfl (by decide) 0 panelObjExample rfl

/-- The initial two panels (App lines 10–13); `crypto.randomUUID()` is
modelled by fixed distinct ids. -/
def initialPanels : List PanelData :=
  [⟨"uuid-0",
    "const Greeter = (name) => \x7b\n  console.log(\"Hello, \" + name);\n\x7d;\n\nGreeter(\"World\");",
    "Original JavaScript"⟩,
   ⟨"uuid-1",
    "function Greeter(name) \x7b\n  // A friendly greeting\n  console.log(`Hello, $\x7bname\x7d!`);\n\x7d\n\nGreeter(\"Universe\");\n",
    "Refactored TypeScript"⟩]

/-- `addPanel`: append a fresh empty panel, but only below the 4-panel
limit.  The fresh uuid is passed in as `newId`. -/
def addPanel (newId : String) (panels : List PanelData) : List PanelData :=
  if panels.length < 4 then
    panels ++ [⟨newId, "", "Comparison " ++ toString panels.length⟩]
  else panels

/-- `removePanel`: `panels.slice(0, -1)`, but only above the 2-panel
minimum. -/
def removePanel (panels : List PanelData) : List PanelData :=
  if 2 < panels.length then panels.dropLast else panels

/-- `updatePanelText`: rewrite the text of the panel with the given id. -/
def updatePanelText (id newText : String) (panels : List PanelData) : List PanelData :=
  panels.map fun p => if p.id = id then { p with text := newText } else p

/-- `updatePanelTitle`: rewrite the title of the panel with the given id. -/
def updatePanelTitle (id newTitle : String) (panels : List PanelData) : List PanelData :=
  panels.map fun p => if p.id = id then { p with title := newTitle } else p

/-- The operations that mutate the panel collection. -/
inductive PanelOp where
  | add (newId : String)
  | remove
  | setText (id text : String)
  | setTitle (id title : String)

def applyOp (op : PanelOp) (panels : List PanelData) : List PanelData :=
  match op with
  | PanelOp.add newId => addPanel newId panels
  | PanelOp.remove => removePanel panels
  | PanelOp.setText id t => updatePanelText id t panels
  | PanelOp.setTitle id t => updatePanelTitle id t panels

def applyOps (ops : List PanelOp) (panels : List PanelData) : List PanelData :=
  ops.foldl (fun ps op => applyOp op ps) panels

/-- The lifecycle invariant: between 2 and 4 panels, and the base panel
(index 0) is the one created at startup. -/
def panelsWellFormed (ps : List PanelData) : Prop :=
  2 ≤ ps.length ∧ ps.length ≤ 4 ∧ (ps.head?.map fun p => p.id) = some "uuid-0"

theorem head_id_map (f : PanelData → PanelData) (hf : ∀ q, (f q).id = q.id)
    (ps : List PanelData) :
    ((ps.map f).head?.map fun p => p.id) = (ps.head?.map fun p => p.id) := by
  cases ps <;> simp [hf]

theorem applyOp_preserves (op : PanelOp) (ps : List PanelData)
    (h : panelsWellFormed ps) : panelsWellFormed (applyOp op ps) := by
  obtain ⟨h2, h4, hh⟩ := h
  cases ps with
  | nil => simp at h2
  | cons p rest =>
      have hid : p.id = "uuid-0" := by simpa using hh
      cases op with
      | add newId =>
          rw [applyOp, addPanel]
          by_cases hlt : (p :: rest).length < 4
          · rw [if_pos hlt]
            refine ⟨by simp, by simp at hlt ⊢; omega, by simp [hid]⟩
          · rw [if_neg hlt]
            exact ⟨h2, h4, hh⟩
      | remove =>
          rw [applyOp, removePanel]
          by_cases hgt : 2 < (p :: rest).length
          · rw [if_pos hgt]
            cases rest with
            | nil => simp at hgt
            | cons q rest' =>
                refine ⟨?_, ?_, by simp [hid]⟩
                · simp at hgt ⊢
                  omega
                · simp at h4 ⊢
                  omega
          · rw [if_neg hgt]
            exact ⟨h2, h4, hh⟩
      | setText id t =>
          rw [applyOp, updatePanelText]
          refine ⟨by simpa using h2, by simpa using h4, ?_⟩
          rw [head_id_map _ (fun q => by by_cases hq : q.id = id <;> simp [hq])]
          exact hh
      | setTitle id t =>
          rw [applyOp, updatePanelTitle]
          refine ⟨by simpa using h2, by simpa using h4, ?_⟩
          rw [head_id_map _ (fun q => by by_cases hq : q.id = id <;> simp [hq])]
          exact hh

theorem applyOps_preserves (ops : List PanelOp) :
    ∀ ps, panelsWellFormed ps → panelsWellFormed (applyOps ops ps) := by
  induction ops with
  | nil => intro ps h; exact h
  | cons op ops ih =>
      intro ps h
      exact ih (applyOp op ps) (applyOp_preserves op ps h)

theorem initialPanels_wellFormed : panelsWellFormed initialPanels :=
  ⟨by simp [initialPanels], by simp [initialPanels], by simp [initialPanels]⟩

/-- C9: the collection starts with exactly 2 panels; under any sequence of
add/remove/edit operations it keeps between 2 and 4 panels and its base
(index 0) is never removed; `addPanel` appends exactly one fresh panel
only below 4, and `removePanel` drops exactly the last panel only above
2. -/
theorem panel_lifecycle_bounds :
    initialPanels.length = 2 ∧
    (∀ ops : List PanelOp,
        2 ≤ (applyOps ops initialPanels).length ∧
        (applyOps ops initialPanels).length ≤ 4 ∧
        ((applyOps ops initialPanels).head?.map fun p => p.id) = some "uuid-0") ∧
    (∀ (ps : List PanelData) (newId : String), ps.length < 4 →
        addPanel newId ps = ps ++ [⟨newId, "", "Comparison " ++ toString ps.length⟩]) ∧
    (∀ (ps : List PanelData) (newId : String), 4 ≤ ps.length → addPanel newId ps = ps) ∧
    (∀ ps : List PanelData, 2 < ps.length → removePanel ps = ps.dropLast) ∧
    (∀ ps : List PanelData, ps.length ≤ 2 → removePanel ps = ps) := by
  refine ⟨by simp [initialPanels], ?_, ?_, ?_, ?_, ?_⟩
  · intro ops
    exact applyOps_preserves ops initialPanels initialPanels_wellFormed
  · intro ps newId h
    rw [addPanel, if_pos h]
  · intro ps newId h
    rw [addPanel, if_neg (by omega)]
  · intro ps h
    rw [removePanel, if_pos h]
  · intro ps h
    rw [removePanel, if_neg (by omega)]

/-- Witness for the C9 theorem at concrete inputs. -/
theorem panel_lifecycle_bounds_witness :
    addPanel "uuid-2" initialPanels =
      initialPanels ++ [⟨"uuid-2", "", "Comparison " ++ toString initialPanels.length⟩] ∧
    removePanel initialPanels = initialPanels ∧
    removePanel (addPanel "uuid-2" initialPanels) =
      (addPanel "uuid-2" initialPanels).dropLast ∧
    2 ≤ (applyOps [PanelOp.add "uuid-2", PanelOp.remove] initialPanels).length := by
  have h := panel_lifecycle_bounds
  refine ⟨h.2.2.1 initialPanels "uuid-2" (by simp [initialPanels]), 
    h.2.2.2.2.2 initialPanels (by simp [initialPanels]), 
    h.2.2.2.2.1 (addPanel "uuid-2" initialPanels) ?_, 
    (h.2.1 [PanelOp.add "uuid-2", PanelOp.remove]).1⟩
  rw [h.2.2.1 initialPanels "uuid-2" (by simp [initialPanels])]
  simp [initialPanels]

/-- The state owned by the scroll-synchronization coordinator: the
re-entrancy guard `isSyncingScroll`, the panels and their viewport refs
(`none` for an unattached ref; `some (top, left)` holds a viewport scroll
offset), the set of "recently synced" panel ids, the pending
indicator-clear timer handle, and a counter supplying fresh timer
handles. -/
structure ScrollState where
  isSyncingScroll : Bool
  panels : List PanelData
  refs : List (Option (Int × Int))
  syncingPanelIds : List String
  syncIndicatorTimer : Option Nat
  timerSeq : Nat
deriving DecidableEq, Repr

/-- The `requestAnimationFrame` callback scheduled by `handleScroll`:
clear the re-entrancy guard. -/
def releaseGuard (s : ScrollState) : ScrollState :=
  { s with isSyncingScroll := false }

/-- `handleScroll` (App lines 159–190).  Returns the new state and whether
a guard-release callback was scheduled on the next frame.  A guarded event
returns the state untouched and schedules nothing.  Otherwise: set the
guard; look up the scrolled panel; write `(top, left)` into every *other*
attached viewport ref; record those panel ids as syncing; cancel any
pending indicator timer and start a fresh one (handle `timerSeq`); and in
every branch schedule the guard release. -/
def handleScroll (s : ScrollState) (scrolledPanelId : String)
    (scrollTop scrollLeft : Int) : ScrollState × Bool :=
  if s.isSyncingScroll then (s, false)
  else
    match s.panels.findIdx? (fun p => p.id = scrolledPanelId) with
    | none => ({ s with isSyncingScroll := true }, true)
    | some scrolledPanelIndex =>
        let refs2 := s.refs.enum.map fun ir =>
          if ir.1 ≠ scrolledPanelIndex then ir.2.map fun _ => (scrollTop, scrollLeft) else ir.2
        let idsToSync := s.refs.enum.filterMap fun ir =>
          if ir.2.isSome ∧ ir.1 ≠ scrolledPanelIndex then
            (s.panels.get? ir.1).map fun p => p.id
          else none
        ({ s with isSyncingScroll := true, refs := refs2, syncingPanelIds := idsToSync,
                  syncIndicatorTimer := some s.timerSeq, timerSeq := s.timerSeq + 1 }, true)

/-- C8: a scroll event arriving while the re-entrancy guard is set changes
nothing — same state, no viewport writes, no synced-set update, no timer
change — and schedules nothing; an event arriving with the guard clear
sets the guard for the synchronous fan-out and always schedules the
release callback, which clears the guard, so the guard is eventually
released and the fan-out is never re-entered. -/
theorem scroll_guard_protocol (s : ScrollState) (src : String) (top left : Int) :
    (s.isSyncingScroll = true → handleScroll s src top left = (s, false)) ∧
    (s.isSyncingScroll = false →
      (handleScroll s src top left).1.isSyncingScroll = true ∧
      (handleScroll s src top left).2 = true ∧
      (releaseGuard (handleScroll s src top left).1).isSyncingScroll = false) := by
  constructor
  · intro hg
    rw [handleScroll, if_pos hg]
  · intro hg
    rw [handleScroll, if_neg (by simp [hg])]
    cases s.panels.findIdx? (fun p => p.id = src) with
    | none => exact ⟨rfl, rfl, rfl⟩
    | some idx => exact ⟨rfl, rfl, rfl⟩

/-- A state with the guard set, for the C8 witness. -/
def guardedState : ScrollState := ⟨true, initialPanels, [none, none], [], none, 0⟩

/-- A state with the guard clear, for the C8 witness. -/
def idleState : ScrollState := ⟨false, initialPanels, [none, none], [], none, 0⟩

/-- Witness for the C8 theorem at concrete states. -/
theorem scroll_guard_protocol_witness :
    handleScroll guardedState "uuid-0" 10 0 = (guardedState, false) ∧
    (handleScroll idleState "uuid-0" 10 0).1.isSyncingScroll = true ∧
    (releaseGuard (handleScroll idleState "uuid-0" 10 0).1).isSyncingScroll = false := by
  have hb := (scroll_guard_protocol guardedState "uuid-0" 10 0).1 rfl
  have hi := (scroll_guard_protocol idleState "uuid-0" 10 0).2 rfl
  exact ⟨hb, hi.1, hi.2.2⟩

end CodeDiff
